import Mathlib

/-!
Shallow embedding of the CSV ingestion script (main.py): directory and file
name classification, table name normalization, the smartTyper type sniffer,
column sampling, storage path construction, configuration loading and the
orchestration control flow.  External library calls (pandas to_datetime,
the AWS sink upload) are modelled as explicit oracle parameters or abstract
outcomes, as the spec treats them as external collaborators.
Character classes are modelled at the ASCII level, which covers every
concrete name the script and the spec discuss, and the end anchor of the
fully anchored patterns is modelled as the end of the string (Python would
also accept a single trailing newline there, a case no name of this data
layout has).
-/

namespace OuraIngest

/-- Characters matched by the regex class backslash-w used in the filename
pattern: alphanumerics and the underscore (ASCII model of Python word
characters). -/
def isWordChar (c : Char) : Bool := c.isAlphanum || c == '_'

/-- Characters matched by the fourth filename segment class [0-9a-zA-Z \-]:
letters, digits, the space and the hyphen. -/
def isTableChar (c : Char) : Bool := c.isAlphanum || c == ' ' || c == '-'

/-- Membership of a character in an inclusive code point range, the meaning
of a regex character range such as [1-9]. -/
def charBetween (lo hi c : Char) : Bool :=
  lo.toNat ≤ c.toNat && c.toNat ≤ hi.toNat

/-- Month alternation of the date pattern: 0[1-9]|1[0-2]. -/
def monthOK (m1 m2 : Char) : Bool :=
  (m1 == '0' && charBetween '1' '9' m2) || (m1 == '1' && charBetween '0' '2' m2)

/-- Day alternation of the date pattern: 0[1-9]|1[0-9]|2[0-9]|3[01]. -/
def dayOK (d1 d2 : Char) : Bool :=
  (d1 == '0' && charBetween '1' '9' d2) || (d1 == '1' && charBetween '0' '9' d2)
    || (d1 == '2' && charBetween '0' '9' d2) || (d1 == '3' && (d2 == '0' || d2 == '1'))

/-- Prefix match of the date regex from smartTyper,
r'(backslash-b)(d4)-(0[1-9]|1[0-2])-(0[1-9]|1[0-9]|2[0-9]|3[01])(backslash-b)',
under re.match semantics: anchored at the start, free on the right except for
the trailing word boundary.  The leading word boundary is subsumed by the
first digit requirement; the trailing one holds when the input ends there or
the next character is not a word character.  All alternatives are two
characters wide, so the compiled form needs no backtracking. -/
def dateFormatMatch (cs : List Char) : Bool :=
  match cs with
  | y1 :: y2 :: y3 :: y4 :: h1 :: m1 :: m2 :: h2 :: d1 :: d2 :: rest =>
    y1.isDigit && y2.isDigit && y3.isDigit && y4.isDigit
      && (h1 == '-') && monthOK m1 m2 && (h2 == '-') && dayOK d1 d2
      && (match rest with
          | [] => true
          | c :: _ => !(isWordChar c))
  | _ => false

/-- Backtracking engine for one greedy group followed by a literal
underscore and a continuation: gRev is the reversed remaining candidate for
the group (longest first), rest the characters after it.  When rest starts
with the literal underscore the continuation k is tried on the remainder;
on failure the group is shrunk by one character, exactly the greedy
backtracking of the regex engine. -/
def shrinkAux {α : Type} (k : List Char → Option α) :
    List Char → List Char → Option (List Char × α)
  | [], _ => none
  | c :: gRev, rest =>
    match rest with
    | r :: restTail =>
      if r = '_' then
        match k restTail with
        | some a => some ((c :: gRev).reverse, a)
        | none => shrinkAux k gRev (c :: r :: restTail)
      else shrinkAux k gRev (c :: r :: restTail)
    | [] => shrinkAux k gRev [c]

/-- Backtracking engine for the last group: a greedy run of table name
characters that must be followed by the literal ".csv" and the end of the
input. -/
def shrinkCsv : List Char → List Char → Option (List Char)
  | [], _ => none
  | c :: gRev, rest =>
    if rest = ['.', 'c', 's', 'v'] then some ((c :: gRev).reverse)
    else shrinkCsv gRev (c :: rest)

/-- One regex group (p)+ followed by a literal underscore and the
continuation k: the engine first consumes the maximal run of p characters
and then backtracks through shorter prefixes. -/
def matchGroupThen {α : Type} (p : Char → Bool) (k : List Char → Option α)
    (cs : List Char) : Option (List Char × α) :=
  shrinkAux k (cs.takeWhile p).reverse (cs.dropWhile p)

/-- The final group ([0-9a-zA-Z \-]+) followed by the literal ".csv" and the
end anchor. -/
def matchG4csv (cs : List Char) : Option (List Char) :=
  shrinkCsv (cs.takeWhile isTableChar).reverse (cs.dropWhile isTableChar)

/-- Full match of the filename pattern
r'(start)((w)+)_((w)+)_((w)+)_([0-9a-zA-Z \-]+)(dot)csv(end)' returning the
four captured groups in order. -/
def matchFileAux (cs : List Char) :
    Option (List Char × (List Char × (List Char × List Char))) :=
  matchGroupThen isWordChar
    (matchGroupThen isWordChar
      (matchGroupThen isWordChar matchG4csv)) cs

/-- File classification from participantIngest: on a pattern match the
participant id is capture group 3 and the raw table name capture group 4;
otherwise the file is unmatched. -/
def classifyFile (f : String) : Option (String × String) :=
  (matchFileAux f.data).map (fun g => (String.mk g.2.2.1, String.mk g.2.2.2))

/-- Reversed pending tail used to describe intermediate states of the
backtracking engine: pend [C, B, A] is the underscore separated reversed
segments C, B, A from innermost to outermost. -/
def pend : List (List Char) → List Char
  | [] => []
  | c :: rest => '_' :: c.reverse ++ pend rest

/-- Wrap a list of segments (innermost first) around a tail, separating with
underscores: strOf [C, B, A] X is A then underscore then B then underscore
then C then underscore then X. -/
def strOf : List (List Char) → List Char → List Char
  | [], x => x
  | c :: rest, x => strOf rest (c ++ '_' :: x)

/-- Flattened form of the wrapped segments without the tail. -/
def joinU : List (List Char) → List Char
  | [] => []
  | c :: rest => joinU rest ++ c ++ ['_']

/-- Candidate enumeration of the backtracking engine over an underscore
separated segment list (innermost first): for each split point, the
continuation is tried on the tail, longest group first. -/
def tryCands {α : Type} (k : List Char → Option α) :
    List (List Char) → List Char → Option (List Char × α)
  | [], _ => none
  | c :: rest, x =>
    match k x with
    | some a => some ((pend rest).reverse ++ c, a)
    | none => tryCands k rest (c ++ '_' :: x)

/-- The grammar of data file names exactly as the spec words it: four
underscore delimited segments, three alphanumeric tags then a segment of
alphanumerics, spaces and hyphens, followed by the literal ".csv".
Modelled from the spec for comparison with the source pattern. -/
def specFileGrammar (s : String) : Prop :=
  ∃ t1 t2 t3 tb : List Char,
    t1 ≠ [] ∧ t2 ≠ [] ∧ t3 ≠ [] ∧ tb ≠ [] ∧
    (∀ c ∈ t1, c.isAlphanum = true) ∧ (∀ c ∈ t2, c.isAlphanum = true) ∧
    (∀ c ∈ t3, c.isAlphanum = true) ∧ (∀ c ∈ tb, isTableChar c = true) ∧
    s.data = t1 ++ '_' :: t2 ++ '_' :: t3 ++ '_' :: tb ++ ['.', 'c', 's', 'v']

/-- The literal tail dot c s v of the filename pattern. -/
def csvTail : List Char := ['.', 'c', 's', 'v']

/-- The literal prefix of both directory patterns. -/
def ppidPrefix : List Char := ['P', 'P', 'I', 'D', ' ']

/-- The literal suffix of the active directory pattern. -/
def dataSuffix : List Char := " Data".data

/-- The literal suffix of the withdrawn directory pattern. -/
def withdrewSuffix : List Char := " Data - withdrew".data

/-- Greedy digit run followed by an exact literal suffix.  Models the regex
fragment [0-9]+ followed by a literal that starts with a non digit: the
greedy run cannot usefully backtrack because a shorter run would leave a
digit where the literal expects a space, so the maximal run check is exact. -/
def matchDigitsSuffix (suffix : List Char) (cs : List Char) : Bool :=
  !(cs.takeWhile Char.isDigit).isEmpty
    && (cs.dropWhile Char.isDigit == suffix)

/-- Full match of the directory pattern r'(start)PPID [0-9]+ Data(end)'. -/
def matchesActive (s : String) : Bool :=
  match s.data with
  | 'P' :: 'P' :: 'I' :: 'D' :: ' ' :: rest => matchDigitsSuffix dataSuffix rest
  | _ => false

/-- Full match of the directory pattern
r'(start)PPID [0-9]+ Data - withdrew(end)'. -/
def matchesWithdrawn (s : String) : Bool :=
  match s.data with
  | 'P' :: 'P' :: 'I' :: 'D' :: ' ' :: rest => matchDigitsSuffix withdrewSuffix rest
  | _ => false

inductive DirStatus where
  | active
  | withdrawn
  | invalid
deriving DecidableEq

/-- Directory classification as performed by looper: the withdrawn pattern
is tested first, then the active pattern, otherwise the name is invalid. -/
def classifyDirectory (name : String) : DirStatus :=
  if matchesWithdrawn name then DirStatus.withdrawn
  else if matchesActive name then DirStatus.active
  else DirStatus.invalid

/-- Table name normalization from participantIngest: replace every space
with an underscore, then every hyphen with an underscore.  Both Python
str.replace calls have single character arguments, hence act character by
character. -/
def normalizeTable (s : String) : String :=
  let s1 := s.data.map (fun c => if c == ' ' then '_' else c)
  String.mk (s1.map (fun c => if c == '-' then '_' else c))

/-- The combined character replacement the two passes of normalizeTable
amount to: spaces and hyphens become underscores, everything else is kept. -/
def normChar (c : Char) : Char := if c == ' ' || c == '-' then '_' else c

/-- Python values as far as the script distinguishes them: strings, other
non string scalars such as numbers, and None. -/
inductive PyVal where
  | str (s : String)
  | int (n : Int)
  | pyNone
deriving DecidableEq

def PyVal.isStr : PyVal → Bool
  | .str _ => true
  | _ => false

/-- A pandas data frame, column major: a list of column name and values
pairs. -/
structure DataFrame where
  cols : List (String × List PyVal)
deriving DecidableEq

/-- Row count as visible through the first column. -/
def DataFrame.nrows (d : DataFrame) : Nat :=
  match d.cols with
  | [] => 0
  | (_, v) :: _ => v.length

/-- Column read df[name]; a missing column raises KeyError in Python, which
is modelled as the absent case. -/
def DataFrame.getCol? (d : DataFrame) (name : String) : Option (List PyVal) :=
  d.cols.lookup name

/-- Column assignment df[name] = v: replace an existing column, otherwise
append a new one. -/
def DataFrame.setCol (d : DataFrame) (name : String) (v : List PyVal) : DataFrame :=
  if (d.cols.lookup name).isSome then
    ⟨d.cols.map (fun p => if p.1 = name then (name, v) else p)⟩
  else ⟨d.cols ++ [(name, v)]⟩

/-- Possible values of the Python variable holding the frame after the
smartTyper call sites: a frame, a series, None, or the type object sentinel
type(str) that smartTyper returns for non string examples. -/
inductive PyObj where
  | df (d : DataFrame)
  | series (s : List PyVal)
  | pyNone
  | typeObj
deriving DecidableEq

/-- sampleEntry: sample = None; try sample = column[0] except pass; return
sample.  Always the element at position zero, with None when the column is
empty or unindexable there. -/
def sampleEntry (column : List PyVal) : PyVal :=
  match column with
  | [] => PyVal.pyNone
  | x :: _ => x

/-- smartTyper.  The bulk conversion pd.to_datetime is an external library
call modelled by the oracle toDT: some converted series on success, absence
when it raises ValueError (which the source catches, logs and turns into a
None return).  A non string example returns the sentinel type(str) before
any pattern is tried; a string example failing the date pattern falls off
the end of the function, an implicit None return.  A missing column raises
KeyError, which the except ValueError clause does not catch, modelled as the
absent result. -/
def smartTyper (toDT : List PyVal → Option (List PyVal)) (exv : PyVal)
    (df : DataFrame) (col : String) (convert : Bool) : Option PyObj :=
  match exv with
  | .str s =>
    if dateFormatMatch s.data then
      match df.getCol? col with
      | some cv =>
        match toDT cv with
        | some useries =>
          some (if convert then PyObj.df (df.setCol col useries) else PyObj.series useries)
        | none => some PyObj.pyNone
      | none => none
    else some PyObj.pyNone
  | _ => some PyObj.typeObj

/-- Storage path of ingestData: s3_path with one slash and the table name
and a trailing slash, except that a root already ending in a slash gets no
extra slash.  The source inspects s3_path[-1], which raises IndexError on
an empty root, modelled as the absent case. -/
def tablePath (s3path tablename : String) : Option String :=
  match s3path.data.getLast? with
  | some c =>
    if c = '/' then some (s3path ++ tablename ++ "/")
    else some (s3path ++ "/" ++ tablename ++ "/")
  | none => none

/-- The frame and path handed by ingestData to the sink call
wr.s3.to_parquet, after the pid column is appended and the manual smartTyper
dispatch has run.  Absence models an uncaught exception before the sink call
(empty storage root, or a dispatched table missing its target column).  The
two dispatch conditionals of the source are sequential but mutually
exclusive on the table name, so the chain below is extensionally the source
flow. -/
def ingestDataPayload (toDT : List PyVal → Option (List PyVal)) (data : DataFrame)
    (pid tablename s3path : String) (enableTyper : Bool) : Option (PyObj × String) :=
  match tablePath s3path tablename with
  | none => none
  | some path =>
    let d1 := data.setCol "pid" (List.replicate data.nrows (PyVal.str pid))
    if enableTyper then
      if tablename = "activity" || tablename = "sleep" then
        match d1.getCol? "summary_date" with
        | none => none
        | some cv =>
          (smartTyper toDT (sampleEntry cv) d1 "summary_date" true).map (fun o => (o, path))
      else if tablename = "sleep_periods" then
        match d1.getCol? "day" with
        | none => none
        | some cv =>
          (smartTyper toDT (sampleEntry cv) d1 "day" true).map (fun o => (o, path))
      else some (PyObj.df d1, path)
    else some (PyObj.df d1, path)

/-- Process wide configuration record built by loadConfig. -/
structure Config where
  whitelist_tables : List String
  aws_database : String
  aws_s3_data : String
deriving DecidableEq

/-- The required key presence check of loadConfig. -/
def hasRequiredKeys (aws : List (String × String)) : Bool :=
  (aws.lookup "aws_database").isSome && (aws.lookup "aws_s3_data").isSome

/-- Events of the observable input output behaviour of one run. -/
inductive IOEvent where
  | readWhitelist
  | readConfigCfg
  | listRoot
  | listDir (d : String)
  | readCsv (f : String)
  | sinkUpload (t : String)
deriving DecidableEq

/-- loadConfig: reads whitelist.txt (one stripped line per table), reads
config.cfg, then checks both required AWS keys and raises otherwise.  The
trace lists the file reads the function performs, in order, before the key
check runs. -/
def loadConfig (whitelistLines : List String) (aws : List (String × String)) :
    List IOEvent × Except String Config :=
  ([IOEvent.readWhitelist, IOEvent.readConfigCfg],
    if hasRequiredKeys aws then
      Except.ok ⟨whitelistLines.map (fun l => l.trim),
        ((aws.lookup "aws_database").getD ""),
        ((aws.lookup "aws_s3_data").getD "")⟩
    else Except.error "Malformed config file section - aws")

/-- Abstract file system: the root listing, the files of each directory and
the frame loaded from each file. -/
structure FSModel where
  rootDirs : List String
  filesOf : String → List String
  frameOf : String → DataFrame

/-- Observable events of participantIngest for one participant directory:
the directory listing, then per matched and whitelisted file the CSV read
and the attempted sink upload. -/
def participantTrace (fs : FSModel) (cfg : Config) (d : String) : List IOEvent :=
  IOEvent.listDir d :: (fs.filesOf d).flatMap (fun f =>
    match classifyFile f with
    | some pr =>
      let t := normalizeTable pr.2
      if t ∈ cfg.whitelist_tables then [IOEvent.readCsv f, IOEvent.sinkUpload t] else []
    | none => [])

/-- Observable events of looper: the root listing, then per directory the
withdrawn check (skip), the active check (descend) or the invalid warning
(skip). -/
def looperTrace (fs : FSModel) (cfg : Config) : List IOEvent :=
  IOEvent.listRoot :: fs.rootDirs.flatMap (fun d =>
    if matchesWithdrawn d then []
    else if matchesActive d then participantTrace fs cfg d
    else [])

/-- The whole run of main: load the configuration, abort on its error,
otherwise walk the tree. -/
def mainRun (whitelistLines : List String) (aws : List (String × String))
    (fs : FSModel) : List IOEvent × Except String Unit :=
  match loadConfig whitelistLines aws with
  | (tr, .error e) => (tr, Except.error e)
  | (tr, .ok cfg) => (tr ++ looperTrace fs cfg, Except.ok ())

/-- The per file sink call boundary of ingestData: the upload either
succeeds or raises, and every raised exception is caught and logged with
the table name; the function always returns normally. -/
def ingestSinkBoundary (sinkResult : Except String Unit) (tablename : String) :
    List String × Except String Unit :=
  match sinkResult with
  | .ok _ => ([], Except.ok ())
  | .error _ =>
    (["Error : Could not create table " ++ tablename ++ " on AWS."], Except.ok ())

/-- The participantIngest file loop with an abstract sink: for each matched
and whitelisted file the ingest runs and its sink boundary outcome is
recorded. -/
def participantRun (sink : String → String → Except String Unit) (cfg : Config)
    (files : List String) : List (String × Except String Unit) :=
  files.flatMap (fun f =>
    match classifyFile f with
    | some pr =>
      let t := normalizeTable pr.2
      if t ∈ cfg.whitelist_tables then [(f, (ingestSinkBoundary (sink f t) t).2)] else []
    | none => [])

/-- Concrete frame whose sampled summary_date entry is date like while the
full column defeats the bulk parse. -/
def dfC1 : DataFrame :=
  ⟨[("summary_date", [PyVal.str "2024-01-15", PyVal.str "banana"])]⟩

/-- Oracle for a bulk pd.to_datetime call that raises ValueError. -/
def toDTfail : List PyVal → Option (List PyVal) := fun _ => none

/-- Concrete file system used to exercise the startup abort. -/
def fs0 : FSModel :=
  ⟨["PPID 1 Data"], fun _ => ["a_b_1_sleep.csv"], fun _ => dfC1⟩

/-- Concrete configuration used to exercise the file loop. -/
def cfg0 : Config := ⟨["sleep"], "db", "s3://bucket/data"⟩

/-! General list facts about greedy runs, used to reason about the regex
engines. -/

theorem takeWhile_append_all {α : Type} {p : α → Bool} (a l : List α)
    (h : ∀ c ∈ a, p c = true) : (a ++ l).takeWhile p = a ++ l.takeWhile p := by
  induction a with
  | nil => simp
  | cons c a ih =>
    have hc : p c = true := h c (List.mem_cons_self c a)
    simp [List.takeWhile_cons, hc, ih (fun x hx => h x (List.mem_cons_of_mem c hx))]

theorem dropWhile_append_all {α : Type} {p : α → Bool} (a l : List α)
    (h : ∀ c ∈ a, p c = true) : (a ++ l).dropWhile p = l.dropWhile p := by
  induction a with
  | nil => simp
  | cons c a ih =>
    have hc : p c = true := h c (List.mem_cons_self c a)
    simp [List.dropWhile_cons, hc, ih (fun x hx => h x (List.mem_cons_of_mem c hx))]

theorem takeWhile_append_stop {α : Type} {p : α → Bool} (l suf : List α)
    (hsuf : ∀ c, suf.head? = some c → p c = false) :
    (l ++ suf).takeWhile p = l.takeWhile p
      ∧ (l ++ suf).dropWhile p = l.dropWhile p ++ suf := by
  induction l with
  | nil =>
    cases suf with
    | nil => simp
    | cons s ss => simp [List.takeWhile_cons, List.dropWhile_cons, hsuf s rfl]
  | cons a l ih =>
    by_cases hpa : p a = true
    · simp [List.takeWhile_cons, List.dropWhile_cons, hpa, ih.1, ih.2]
    · simp only [Bool.not_eq_true] at hpa
      simp [List.takeWhile_cons, List.dropWhile_cons, hpa]

theorem mem_takeWhile_pred {α : Type} {p : α → Bool} :
    ∀ {l : List α} {c : α}, c ∈ l.takeWhile p → c ∈ l ∧ p c = true := by
  intro l
  induction l with
  | nil => intro c hc; simp at hc
  | cons a l ih =>
    intro c hc
    by_cases hpa : p a = true
    · rw [List.takeWhile_cons, if_pos hpa] at hc
      rcases List.mem_cons.mp hc with h | h
      · exact ⟨by simp [h], h ▸ hpa⟩
      · exact ⟨List.mem_cons_of_mem a (ih h).1, (ih h).2⟩
    · rw [List.takeWhile_cons, if_neg hpa] at hc
      simp at hc

theorem dropWhile_head_not {α : Type} {p : α → Bool} :
    ∀ {l : List α} {r : α} {rs : List α}, l.dropWhile p = r :: rs → p r = false := by
  intro l
  induction l with
  | nil => intro r rs h; simp at h
  | cons a l ih =>
    intro r rs h
    by_cases hpa : p a = true
    · rw [List.dropWhile_cons, if_pos hpa] at h
      exact ih h
    · rw [List.dropWhile_cons, if_neg hpa] at h
      cases h
      simpa using hpa

theorem dropWhile_all_append {α : Type} {p : α → Bool} (a suf : List α)
    (h : ∀ c ∈ a, p c = true) (hsuf : ∀ c, suf.head? = some c → p c = false) :
    (a ++ suf).dropWhile p = suf := by
  rw [(takeWhile_append_stop a suf hsuf).2]
  have : a.dropWhile p = [] := by
    have := dropWhile_append_all a [] h
    simpa using this
  simp [this]

/-! Behaviour of the backtracking engine shrinkAux. -/

theorem shrinkAux_nil {α : Type} (k : List Char → Option α) (rest : List Char) :
    shrinkAux k [] rest = none := rfl

theorem shrinkAux_cons_ne {α : Type} (k : List Char → Option α) (c : Char)
    (g : List Char) (r : Char) (rt : List Char) (hr : r ≠ '_') :
    shrinkAux k (c :: g) (r :: rt) = shrinkAux k g (c :: r :: rt) := by
  simp [shrinkAux, hr]

theorem shrinkAux_cons_nil {α : Type} (k : List Char → Option α) (c : Char)
    (g : List Char) : shrinkAux k (c :: g) [] = shrinkAux k g [c] := rfl

theorem shrinkAux_trigger {α : Type} (k : List Char → Option α) (c : Char)
    (g rt : List Char) :
    shrinkAux k (c :: g) ('_' :: rt)
      = match k rt with
        | some a => some ((c :: g).reverse, a)
        | none => shrinkAux k g (c :: '_' :: rt) := by
  simp [shrinkAux]

theorem shrinkAux_step {α : Type} (k : List Char → Option α) (c : Char)
    (g rest : List Char) (h : rest.head? ≠ some '_') :
    shrinkAux k (c :: g) rest = shrinkAux k g (c :: rest) := by
  cases rest with
  | nil => exact shrinkAux_cons_nil k c g
  | cons r rt =>
    refine shrinkAux_cons_ne k c g r rt (fun hr => h ?_)
    rw [hr]; rfl

theorem shrinkAux_skip {α : Type} (k : List Char → Option α) (ar : List Char)
    (h : ∀ c ∈ ar, c ≠ '_') :
    ∀ (gRev rest : List Char), rest.head? ≠ some '_' →
      shrinkAux k (ar ++ gRev) rest = shrinkAux k gRev (ar.reverse ++ rest) := by
  induction ar with
  | nil => intro g rest _; simp
  | cons c ar ih =>
    intro g rest hr
    have hc : c ≠ '_' := h c (List.mem_cons_self c ar)
    rw [List.cons_append, shrinkAux_step k c (ar ++ g) rest hr,
      ih (fun x hx => h x (List.mem_cons_of_mem c hx)) g (c :: rest)
        (by simp [hc])]
    simp [List.reverse_cons, List.append_assoc]

/-! Characterization of the file pattern engine on underscore separated
segments. -/

theorem alnum_not_underscore {c : Char} (h : c.isAlphanum = true) : c ≠ '_' := by
  intro hc
  rw [hc] at h
  simp [Char.isAlphanum, Char.isAlpha, Char.isDigit, Char.isUpper, Char.isLower] at h

theorem tableChar_not_underscore {c : Char} (h : isTableChar c = true) : c ≠ '_' := by
  intro hc
  rw [hc] at h
  simp [isTableChar, Char.isAlphanum, Char.isAlpha, Char.isDigit,
    Char.isUpper, Char.isLower] at h

theorem alnum_isWordChar {c : Char} (h : c.isAlphanum = true) : isWordChar c = true := by
  simp [isWordChar, h]

/-- One backtracking pass over the pending reversed segments visits exactly
the underscore split candidates, longest group first. -/
theorem shrinkAux_pend {α : Type} (k : List Char → Option α) :
    ∀ (segs : List (List Char)),
      (∀ s ∈ segs, s ≠ [] ∧ ∀ c ∈ s, c.isAlphanum = true) →
      ∀ (x : List Char), x.head? ≠ some '_' →
        shrinkAux k (pend segs) x = tryCands k segs x := by
  intro segs
  induction segs with
  | nil => intro _ x _; rfl
  | cons C rest ih =>
    intro h x hx
    obtain ⟨hCne, hCa⟩ := h C (List.mem_cons_self C rest)
    obtain ⟨cl, crt, hrev⟩ : ∃ cl crt, C.reverse = cl :: crt := by
      cases hC : C.reverse with
      | nil => exact absurd (List.reverse_eq_nil_iff.mp hC) hCne
      | cons cl crt => exact ⟨cl, crt, rfl⟩
    have hclC : cl ∈ C := by
      rw [← List.mem_reverse, hrev]; exact List.mem_cons_self cl crt
    have hcl : cl ≠ '_' := alnum_not_underscore (hCa cl hclC)
    have hcrt : ∀ c ∈ crt, c ≠ '_' := fun c hc =>
      alnum_not_underscore (hCa c (by rw [← List.mem_reverse, hrev]; exact List.mem_cons_of_mem cl hc))
    have hCrev : (cl :: crt).reverse = C := by rw [← hrev, List.reverse_reverse]
    rw [show pend (C :: rest) = '_' :: (C.reverse ++ pend rest) from rfl,
      shrinkAux_step k '_' (C.reverse ++ pend rest) x hx, hrev, List.cons_append,
      shrinkAux_trigger]
    cases hk : k x with
    | some a =>
      have hg : (cl :: (crt ++ pend rest)).reverse = (pend rest).reverse ++ C := by
        rw [List.reverse_cons, List.reverse_append, List.append_assoc, ← List.reverse_cons,
          hCrev]
      simp only [hg, tryCands, hk]
    | none =>
      have hCheads : (C ++ '_' :: x).head? ≠ some '_' := by
        cases hCc : C with
        | nil => exact absurd hCc hCne
        | cons c0 cs =>
          have : c0 ≠ '_' := alnum_not_underscore (hCa c0 (by rw [hCc]; exact List.mem_cons_self c0 cs))
          simp [this]
      have hrw : crt.reverse ++ cl :: '_' :: x = C ++ '_' :: x := by
        rw [← hCrev, List.reverse_cons, List.append_assoc, List.singleton_append]
      rw [shrinkAux_skip k crt hcrt (pend rest) (cl :: '_' :: x) (by simp [hcl]), hrw,
        ih (fun s hs => h s (List.mem_cons_of_mem C hs)) (C ++ '_' :: x) hCheads]
      simp only [tryCands, hk]

theorem strOf_eq (segs : List (List Char)) :
    ∀ x : List Char, strOf segs x = joinU segs ++ x := by
  induction segs with
  | nil => intro x; rfl
  | cons C rest ih =>
    intro x
    rw [show strOf (C :: rest) x = strOf rest (C ++ '_' :: x) from rfl, ih,
      show joinU (C :: rest) = joinU rest ++ C ++ ['_'] from rfl]
    simp [List.append_assoc]

theorem joinU_reverse_pend (segs : List (List Char)) :
    (joinU segs).reverse = pend segs := by
  induction segs with
  | nil => rfl
  | cons C rest ih =>
    rw [show joinU (C :: rest) = joinU rest ++ C ++ ['_'] from rfl,
      show pend (C :: rest) = '_' :: (C.reverse ++ pend rest) from rfl]
    simp [List.reverse_append, ih]

theorem joinU_all_word (segs : List (List Char))
    (h : ∀ s ∈ segs, ∀ c ∈ s, c.isAlphanum = true) :
    ∀ c ∈ joinU segs, isWordChar c = true := by
  induction segs with
  | nil => intro c hc; simp [joinU] at hc
  | cons C rest ih =>
    intro c hc
    rw [show joinU (C :: rest) = joinU rest ++ C ++ ['_'] from rfl] at hc
    rcases List.mem_append.mp hc with hc | hc
    · rcases List.mem_append.mp hc with hc | hc
      · exact ih (fun s hs => h s (List.mem_cons_of_mem C hs)) c hc
      · exact alnum_isWordChar (h C (List.mem_cons_self C rest) c hc)
    · simp at hc
      simp [hc, isWordChar]

theorem csvTail_head_not_word : ∀ c, csvTail.head? = some c → isWordChar c = false := by
  intro c hc
  simp [csvTail] at hc
  simp [← hc, isWordChar, Char.isAlphanum, Char.isAlpha, Char.isDigit,
    Char.isUpper, Char.isLower]

theorem csvTail_head_not_table : ∀ c, csvTail.head? = some c → isTableChar c = false := by
  intro c hc
  simp [csvTail] at hc
  simp [← hc, isTableChar, Char.isAlphanum, Char.isAlpha, Char.isDigit,
    Char.isUpper, Char.isLower]

/-- Evaluation of one group matcher on segments wrapped around the final
table segment and the csv tail. -/
theorem matchGroupThen_strOf {α : Type} (k : List Char → Option α)
    (segs : List (List Char))
    (hsegs : ∀ s ∈ segs, s ≠ [] ∧ ∀ c ∈ s, c.isAlphanum = true)
    (tb : List Char) (htb : ∀ c ∈ tb, isTableChar c = true) :
    matchGroupThen isWordChar k (strOf segs (tb ++ csvTail))
      = tryCands k segs (tb ++ csvTail) := by
  have hW : ∀ c ∈ tb.takeWhile isWordChar, c ≠ '_' := fun c hc =>
    tableChar_not_underscore (htb c (mem_takeWhile_pred hc).1)
  have hWword : ∀ c ∈ tb.takeWhile isWordChar, isWordChar c = true := fun c hc =>
    (mem_takeWhile_pred hc).2
  have hstop := takeWhile_append_stop tb csvTail csvTail_head_not_word
  have hRhead : (tb.dropWhile isWordChar ++ csvTail).head? ≠ some '_' := by
    cases hR : tb.dropWhile isWordChar with
    | nil => simp [csvTail]
    | cons r rs =>
      have : isWordChar r = false := dropWhile_head_not hR
      have hr : r ≠ '_' := by
        intro hrr; rw [hrr] at this; simp [isWordChar] at this
      simp [hr]
  have htw : (joinU segs ++ (tb ++ csvTail)).takeWhile isWordChar
      = joinU segs ++ tb.takeWhile isWordChar := by
    rw [takeWhile_append_all (joinU segs) (tb ++ csvTail)
      (joinU_all_word segs (fun s hs => (hsegs s hs).2)), hstop.1]
  have hdw : (joinU segs ++ (tb ++ csvTail)).dropWhile isWordChar
      = tb.dropWhile isWordChar ++ csvTail := by
    rw [dropWhile_append_all (joinU segs) (tb ++ csvTail)
      (joinU_all_word segs (fun s hs => (hsegs s hs).2)), hstop.2]
  have htbhead : (tb ++ csvTail).head? ≠ some '_' := by
    cases tb with
    | nil => simp [csvTail]
    | cons t ts =>
      have : t ≠ '_' := tableChar_not_underscore (htb t (List.mem_cons_self t ts))
      simp [this]
  rw [strOf_eq, matchGroupThen, htw, hdw, List.reverse_append, joinU_reverse_pend,
    shrinkAux_skip k (tb.takeWhile isWordChar).reverse
      (fun c hc => hW c (List.mem_reverse.mp hc)) (pend segs) _ hRhead,
    List.reverse_reverse, ← List.append_assoc, List.takeWhile_append_dropWhile,
    shrinkAux_pend k segs hsegs (tb ++ csvTail) htbhead]

/-- The final group matcher accepts exactly the table segment before the
csv tail. -/
theorem matchG4csv_eq {tb : List Char} (hne : tb ≠ [])
    (htb : ∀ c ∈ tb, isTableChar c = true) :
    matchG4csv (tb ++ csvTail) = some tb := by
  have hstop := takeWhile_append_stop tb csvTail csvTail_head_not_table
  have htw : tb.takeWhile isTableChar = tb := by
    have := takeWhile_append_all tb ([] : List Char) htb
    simpa using this
  have hdw : tb.dropWhile isTableChar = [] := by
    have := dropWhile_append_all tb ([] : List Char) htb
    simpa using this
  obtain ⟨cl, crt, hrev⟩ : ∃ cl crt, tb.reverse = cl :: crt := by
    cases hC : tb.reverse with
    | nil => exact absurd (List.reverse_eq_nil_iff.mp hC) hne
    | cons cl crt => exact ⟨cl, crt, rfl⟩
  rw [matchG4csv, hstop.1, hstop.2, htw, hdw, List.nil_append, hrev,
    show shrinkCsv (cl :: crt) csvTail = some ((cl :: crt).reverse) from by
      simp [shrinkCsv, csvTail], ← hrev, List.reverse_reverse]

/-- Claim C2 (amended): every filename of the four segment grammar of the
spec is matched by the source pattern with participant id the third segment
and raw table name the fourth; but the tag segments of the source pattern
use the word class, which also contains the underscore, so filenames of
more than four underscore separated segments match as well, with the
participant id the second to last segment, as classifyFile on
a_b_c_d_e.csv shows. -/
theorem classifyFile_grammar_extraction :
    (∀ t1 t2 t3 tb : List Char,
      t1 ≠ [] → t2 ≠ [] → t3 ≠ [] → tb ≠ [] →
      (∀ c ∈ t1, c.isAlphanum = true) → (∀ c ∈ t2, c.isAlphanum = true) →
      (∀ c ∈ t3, c.isAlphanum = true) → (∀ c ∈ tb, isTableChar c = true) →
      matchFileAux (t1 ++ ('_' :: (t2 ++ ('_' :: (t3 ++ ('_' :: (tb ++ csvTail)))))))
        = some (t1, (t2, (t3, tb))))
    ∧ classifyFile "a_b_c_d_e.csv" = some ("d", "e") := by
  constructor
  · intro t1 t2 t3 tb h1 h2 h3 h4 a1 a2 a3 a4
    have hseg0 : ∀ s ∈ ([] : List (List Char)),
        s ≠ [] ∧ ∀ c ∈ s, c.isAlphanum = true := by simp
    have hseg1 : ∀ s ∈ [t3], s ≠ [] ∧ ∀ c ∈ s, c.isAlphanum = true := by
      intro s hs; rw [List.mem_singleton] at hs; subst hs; exact ⟨h3, a3⟩
    have hseg2 : ∀ s ∈ [t3, t2], s ≠ [] ∧ ∀ c ∈ s, c.isAlphanum = true := by
      intro s hs
      rcases List.mem_cons.mp hs with hs | hs
      · subst hs; exact ⟨h3, a3⟩
      · rw [List.mem_singleton] at hs; subst hs; exact ⟨h2, a2⟩
    have hseg3 : ∀ s ∈ [t3, t2, t1], s ≠ [] ∧ ∀ c ∈ s, c.isAlphanum = true := by
      intro s hs
      rcases List.mem_cons.mp hs with hs | hs
      · subst hs; exact ⟨h3, a3⟩
      rcases List.mem_cons.mp hs with hs | hs
      · subst hs; exact ⟨h2, a2⟩
      · rw [List.mem_singleton] at hs; subst hs; exact ⟨h1, a1⟩
    have f2 : matchGroupThen isWordChar matchG4csv (tb ++ csvTail) = none := by
      have := matchGroupThen_strOf matchG4csv [] hseg0 tb a4
      simpa [strOf, tryCands] using this
    have f1 : matchGroupThen isWordChar (matchGroupThen isWordChar matchG4csv)
        (tb ++ csvTail) = none := by
      have := matchGroupThen_strOf (matchGroupThen isWordChar matchG4csv) [] hseg0 tb a4
      simpa [strOf, tryCands] using this
    have g4 : matchG4csv (tb ++ csvTail) = some tb := matchG4csv_eq h4 a4
    have s1 : matchGroupThen isWordChar matchG4csv (t3 ++ ('_' :: (tb ++ csvTail)))
        = some (t3, tb) := by
      have := matchGroupThen_strOf matchG4csv [t3] hseg1 tb a4
      simpa [strOf, tryCands, g4, pend] using this
    have f3 : matchGroupThen isWordChar (matchGroupThen isWordChar matchG4csv)
        (t3 ++ ('_' :: (tb ++ csvTail))) = none := by
      have := matchGroupThen_strOf (matchGroupThen isWordChar matchG4csv) [t3] hseg1 tb a4
      simpa [strOf, tryCands, f2] using this
    have s2 : matchGroupThen isWordChar (matchGroupThen isWordChar matchG4csv)
        (t2 ++ ('_' :: (t3 ++ ('_' :: (tb ++ csvTail))))) = some (t2, (t3, tb)) := by
      have := matchGroupThen_strOf (matchGroupThen isWordChar matchG4csv) [t3, t2] hseg2 tb a4
      simpa [strOf, tryCands, f2, s1, pend] using this
    have main := matchGroupThen_strOf
      (matchGroupThen isWordChar (matchGroupThen isWordChar matchG4csv)) [t3, t2, t1]
      hseg3 tb a4
    rw [matchFileAux]
    simpa [strOf, tryCands, f1, f3, s2, pend] using main
  · decide

/-- Claim C2, counterexample to the claim as stated: a_b_c_d_e.csv does not
satisfy the four segment grammar of the spec (it has four underscores where
the grammar forces exactly three), yet the source pattern matches it and
extracts participant id d, the second to last segment, not the third
segment c; the file is not skipped. -/
theorem classifyFile_five_segments :
    ¬ specFileGrammar "a_b_c_d_e.csv"
      ∧ classifyFile "a_b_c_d_e.csv" = some ("d", "e") := by
  constructor
  · rintro ⟨t1, t2, t3, tb, h1, h2, h3, h4, a1, a2, a3, a4, hdata⟩
    have hc : List.count '_' "a_b_c_d_e.csv".data = 4 := by decide
    rw [hdata] at hc
    have z1 : List.count '_' t1 = 0 :=
      List.count_eq_zero.mpr (fun hm => alnum_not_underscore (a1 '_' hm) rfl)
    have z2 : List.count '_' t2 = 0 :=
      List.count_eq_zero.mpr (fun hm => alnum_not_underscore (a2 '_' hm) rfl)
    have z3 : List.count '_' t3 = 0 :=
      List.count_eq_zero.mpr (fun hm => alnum_not_underscore (a3 '_' hm) rfl)
    have z4 : List.count '_' tb = 0 :=
      List.count_eq_zero.mpr (fun hm => tableChar_not_underscore (a4 '_' hm) rfl)
    have z5 : List.count '_' ['.', 'c', 's', 'v'] = 0 := by decide
    simp [List.count_append, List.count_cons, z1, z2, z3, z4, z5] at hc
  · decide

/-- Witness for the grammar direction of claim C2 at a concrete grammar
conforming filename. -/
theorem classifyFile_grammar_extraction_witness :
    matchFileAux ("tag1".data ++ ('_' :: ("tag2".data ++ ('_' :: ("007".data
        ++ ('_' :: ("sleep periods".data ++ csvTail)))))))
      = some ("tag1".data, ("tag2".data, ("007".data, "sleep periods".data))) :=
  classifyFile_grammar_extraction.1 "tag1".data "tag2".data "007".data
    "sleep periods".data (by decide) (by decide) (by decide) (by decide)
    (by decide) (by decide) (by decide) (by decide)

/-! Directory classification. -/

theorem dataSuffix_head_not_digit : ∀ c, dataSuffix.head? = some c → c.isDigit = false := by
  intro c hc
  have h : c = ' ' := by
    have : dataSuffix.head? = some ' ' := by decide
    rw [this] at hc
    exact (Option.some_inj.mp hc).symm
  subst h; decide

theorem withdrewSuffix_head_not_digit :
    ∀ c, withdrewSuffix.head? = some c → c.isDigit = false := by
  intro c hc
  have h : c = ' ' := by
    have : withdrewSuffix.head? = some ' ' := by decide
    rw [this] at hc
    exact (Option.some_inj.mp hc).symm
  subst h; decide

/-- The digit run plus literal suffix matcher recognizes exactly the
strings made of a nonempty digit run followed by the literal. -/
theorem matchDigitsSuffix_iff (suffix cs : List Char)
    (hsuf : ∀ c, suffix.head? = some c → c.isDigit = false) :
    matchDigitsSuffix suffix cs = true ↔
      ∃ ds : List Char, ds ≠ [] ∧ (∀ c ∈ ds, c.isDigit = true) ∧ cs = ds ++ suffix := by
  constructor
  · intro h
    rw [matchDigitsSuffix, Bool.and_eq_true] at h
    obtain ⟨h1, h2⟩ := h
    have hne : cs.takeWhile Char.isDigit ≠ [] := by
      intro hnil; rw [hnil] at h1; simp at h1
    have hdrop : cs.dropWhile Char.isDigit = suffix := by simpa using h2
    refine ⟨cs.takeWhile Char.isDigit, hne, fun c hc => (mem_takeWhile_pred hc).2, ?_⟩
    rw [← hdrop]
    exact (List.takeWhile_append_dropWhile _ _).symm
  · rintro ⟨ds, hne, hdig, rfl⟩
    have hstop := takeWhile_append_stop ds suffix hsuf
    have htw : ds.takeWhile Char.isDigit = ds := by
      simpa using takeWhile_append_all ds [] hdig
    have hdw : ds.dropWhile Char.isDigit = [] := by
      simpa using dropWhile_append_all ds [] hdig
    rw [matchDigitsSuffix, hstop.1, hstop.2, htw, hdw, List.nil_append]
    simp [List.isEmpty_eq_false.mpr hne]

/-- The active pattern matches exactly the names PPID digits Data. -/
theorem matchesActive_iff (s : String) :
    matchesActive s = true ↔ ∃ ds : List Char, ds ≠ [] ∧
      (∀ c ∈ ds, c.isDigit = true) ∧ s.data = ppidPrefix ++ ds ++ dataSuffix := by
  constructor
  · intro h
    rw [matchesActive] at h
    split at h
    · rename_i rest heq
      obtain ⟨ds, hne, hdig, hrest⟩ :=
        (matchDigitsSuffix_iff dataSuffix rest dataSuffix_head_not_digit).mp h
      exact ⟨ds, hne, hdig, by rw [heq, hrest]; simp [ppidPrefix]⟩
    · simp at h
  · rintro ⟨ds, hne, hdig, hdata⟩
    have hform : s.data = 'P' :: 'P' :: 'I' :: 'D' :: ' ' :: (ds ++ dataSuffix) := by
      rw [hdata]; simp [ppidPrefix]
    rw [matchesActive, hform]
    exact (matchDigitsSuffix_iff dataSuffix (ds ++ dataSuffix)
      dataSuffix_head_not_digit).mpr ⟨ds, hne, hdig, rfl⟩

/-- The withdrawn pattern matches exactly the names
PPID digits Data - withdrew. -/
theorem matchesWithdrawn_iff (s : String) :
    matchesWithdrawn s = true ↔ ∃ ds : List Char, ds ≠ [] ∧
      (∀ c ∈ ds, c.isDigit = true) ∧ s.data = ppidPrefix ++ ds ++ withdrewSuffix := by
  constructor
  · intro h
    rw [matchesWithdrawn] at h
    split at h
    · rename_i rest heq
      obtain ⟨ds, hne, hdig, hrest⟩ :=
        (matchDigitsSuffix_iff withdrewSuffix rest withdrewSuffix_head_not_digit).mp h
      exact ⟨ds, hne, hdig, by rw [heq, hrest]; simp [ppidPrefix]⟩
    · simp at h
  · rintro ⟨ds, hne, hdig, hdata⟩
    have hform : s.data = 'P' :: 'P' :: 'I' :: 'D' :: ' ' :: (ds ++ withdrewSuffix) := by
      rw [hdata]; simp [ppidPrefix]
    rw [matchesWithdrawn, hform]
    exact (matchDigitsSuffix_iff withdrewSuffix (ds ++ withdrewSuffix)
      withdrewSuffix_head_not_digit).mpr ⟨ds, hne, hdig, rfl⟩

/-- The two directory patterns are mutually exclusive. -/
theorem withdrawn_not_active {s : String} (hw : matchesWithdrawn s = true) :
    matchesActive s = false := by
  by_contra hA
  rw [Bool.not_eq_false] at hA
  obtain ⟨ds, _, hdig, hdw⟩ := (matchesWithdrawn_iff s).mp hw
  obtain ⟨es, _, hdig2, hda⟩ := (matchesActive_iff s).mp hA
  rw [hdw] at hda
  have h1 : ds ++ withdrewSuffix = es ++ dataSuffix := by
    rw [List.append_assoc, List.append_assoc] at hda
    exact List.append_cancel_left hda
  have h2 : withdrewSuffix = dataSuffix := by
    have d1 := dropWhile_all_append ds withdrewSuffix hdig withdrewSuffix_head_not_digit
    have d2 := dropWhile_all_append es dataSuffix hdig2 dataSuffix_head_not_digit
    rw [← d1, h1, d2]
  exact absurd h2 (by decide)

/-- Claim C3: directory classification returns exactly one of active,
withdrawn or invalid, with withdrawn exactly on the withdrew pattern,
active exactly on the active pattern when withdrawn fails, invalid
otherwise; both patterns are characterized structurally, and a withdrawn
directory is never listed by the walk, so its files are never read. -/
theorem classifyDirectory_complete :
    (∀ name : String,
      (classifyDirectory name = DirStatus.withdrawn ↔ matchesWithdrawn name = true)
      ∧ (classifyDirectory name = DirStatus.active
          ↔ (matchesWithdrawn name = false ∧ matchesActive name = true))
      ∧ (classifyDirectory name = DirStatus.invalid
          ↔ (matchesWithdrawn name = false ∧ matchesActive name = false)))
    ∧ (∀ name : String, matchesWithdrawn name = true ↔
        ∃ ds : List Char, ds ≠ [] ∧ (∀ c ∈ ds, c.isDigit = true) ∧
          name.data = ppidPrefix ++ ds ++ withdrewSuffix)
    ∧ (∀ name : String, matchesActive name = true ↔
        ∃ ds : List Char, ds ≠ [] ∧ (∀ c ∈ ds, c.isDigit = true) ∧
          name.data = ppidPrefix ++ ds ++ dataSuffix)
    ∧ (∀ (fs : FSModel) (cfg : Config) (d : String),
        matchesWithdrawn d = true → IOEvent.listDir d ∉ looperTrace fs cfg) := by
  refine ⟨?_, matchesWithdrawn_iff, matchesActive_iff, ?_⟩
  · intro name
    by_cases hw : matchesWithdrawn name = true <;>
      by_cases ha : matchesActive name = true <;>
        simp [classifyDirectory, hw, ha]
  · intro fs cfg d hw hmem
    rw [looperTrace] at hmem
    rcases List.mem_cons.mp hmem with h | h
    · exact IOEvent.noConfusion h
    obtain ⟨dd, hdd, hin⟩ := List.mem_flatMap.mp h
    by_cases hwd : matchesWithdrawn dd = true
    · simp [hwd] at hin
    by_cases had : matchesActive dd = true
    · simp [hwd, had, participantTrace] at hin
      rcases hin with h2 | h2
      · subst h2
        exact hwd hw
      obtain ⟨f, _, hin2⟩ := h2
      rcases hcf : classifyFile f with _ | pr
      · simp [hcf] at hin2
      · by_cases hwl : normalizeTable pr.2 ∈ cfg.whitelist_tables <;>
          simp [hcf, hwl] at hin2
    · simp [hwd, had] at hin

/-- Witness for claim C3 at a concrete withdrawn directory name. -/
theorem classifyDirectory_complete_witness :
    matchesWithdrawn "PPID 7 Data - withdrew" = true
      ∧ IOEvent.listDir "PPID 7 Data - withdrew" ∉ looperTrace fs0 cfg0 :=
  ⟨by decide,
    classifyDirectory_complete.2.2.2 fs0 cfg0 "PPID 7 Data - withdrew" (by decide)⟩

/-- Claim C4: the date sniff is a format only check: 2024-01-15 matches,
2024-02-31 matches too although it is not a calendar date, 2024-13-40 does
not match, any non string example short circuits to the type sentinel
before the pattern runs, and the month and day alternations cover exactly
the decimal values 1 to 12 and 1 to 31. -/
theorem smartTyper_sniff_format_only :
    dateFormatMatch "2024-01-15".data = true
    ∧ dateFormatMatch "2024-02-31".data = true
    ∧ dateFormatMatch "2024-13-40".data = false
    ∧ (∀ (toDT : List PyVal → Option (List PyVal)) (v : PyVal) (df : DataFrame)
        (col : String) (cv : Bool), v.isStr = false →
        smartTyper toDT v df col cv = some PyObj.typeObj)
    ∧ (∀ m1 m2 : Char, monthOK m1 m2 = true →
        1 ≤ 10 * (m1.toNat - 48) + (m2.toNat - 48)
          ∧ 10 * (m1.toNat - 48) + (m2.toNat - 48) ≤ 12)
    ∧ (∀ d1 d2 : Char, dayOK d1 d2 = true →
        1 ≤ 10 * (d1.toNat - 48) + (d2.toNat - 48)
          ∧ 10 * (d1.toNat - 48) + (d2.toNat - 48) ≤ 31) := by
  refine ⟨by decide, by decide, by decide, ?_, ?_, ?_⟩
  · intro toDT v df col cv hv
    cases v with
    | str s => simp [PyVal.isStr] at hv
    | int n => rfl
    | pyNone => rfl
  · intro m1 m2 h
    rw [monthOK] at h
    simp only [Bool.or_eq_true, Bool.and_eq_true, beq_iff_eq, charBetween,
      decide_eq_true_eq] at h
    have e0 : ('0').toNat = 48 := rfl
    have e1 : ('1').toNat = 49 := rfl
    have e2 : ('2').toNat = 50 := rfl
    have e9 : ('9').toNat = 57 := rfl
    rcases h with ⟨hm1, hm2⟩ | ⟨hm1, hm2⟩ <;> subst hm1 <;>
      simp only [e0, e1, e2, e9] at hm2 ⊢ <;> constructor <;> omega
  · intro d1 d2 h
    rw [dayOK] at h
    simp only [Bool.or_eq_true, Bool.and_eq_true, beq_iff_eq, charBetween,
      decide_eq_true_eq] at h
    have e0 : ('0').toNat = 48 := rfl
    have e1 : ('1').toNat = 49 := rfl
    have e2 : ('2').toNat = 50 := rfl
    have e3 : ('3').toNat = 51 := rfl
    have e9 : ('9').toNat = 57 := rfl
    rcases h with ((⟨hd1, hd2⟩ | ⟨hd1, hd2⟩) | ⟨hd1, hd2⟩) | ⟨hd1, hd2⟩ <;>
      subst hd1 <;>
        first
          | (simp only [e0, e1, e2, e3, e9] at hd2 ⊢; constructor <;> omega)
          | (rcases hd2 with hd2 | hd2 <;> subst hd2 <;> constructor <;> decide)

/-- Witness for claim C4 at a concrete non string example and a concrete
month pair. -/
theorem smartTyper_sniff_format_only_witness :
    smartTyper toDTfail (PyVal.int 42) dfC1 "summary_date" true = some PyObj.typeObj
      ∧ (1 ≤ 10 * (('1').toNat - 48) + (('2').toNat - 48)
          ∧ 10 * (('1').toNat - 48) + (('2').toNat - 48) ≤ 12) :=
  ⟨smartTyper_sniff_format_only.2.2.2.1 toDTfail (PyVal.int 42) dfC1 "summary_date"
      true rfl,
    smartTyper_sniff_format_only.2.2.2.2.1 '1' '2' (by decide)⟩

/-- Claim C5: the storage path joins the configured root and the table name
with exactly one separating slash: a root already ending in a slash gets no
extra one, so the two spellings of the same root yield the same path. -/
theorem tablePath_single_slash :
    (∀ p t : String, p.data.getLast? = some '/' → tablePath p t = some (p ++ t ++ "/"))
    ∧ (∀ p t : String, p.data ≠ [] → p.data.getLast? ≠ some '/' →
        tablePath p t = some (p ++ "/" ++ t ++ "/"))
    ∧ (∀ p t : String, tablePath (p ++ "/") t = some (p ++ "/" ++ t ++ "/"))
    ∧ tablePath "s3://bucket/data" "sleep" = some "s3://bucket/data/sleep/"
    ∧ tablePath "s3://bucket/data/" "sleep" = some "s3://bucket/data/sleep/" := by
  refine ⟨?_, ?_, ?_, by decide, by decide⟩
  · intro p t h
    rw [tablePath, h]
    simp
  · intro p t hne hns
    rcases hl : p.data.getLast? with _ | c
    · exact absurd (List.getLast?_eq_none_iff.mp hl) hne
    · have hc : c ≠ '/' := fun hcc => hns (by rw [hl, hcc])
      rw [tablePath, hl]
      simp [hc]
  · intro p t
    have hl : (p ++ "/").data.getLast? = some '/' := by
      rw [String.data_append, show ("/" : String).data = ['/'] from rfl]
      exact List.getLast?_concat _
    rw [tablePath, hl]
    simp

/-- Witness for claim C5 at a concrete root without and with a trailing
slash. -/
theorem tablePath_single_slash_witness :
    ("s3://x" : String).data ≠ [] ∧ tablePath "s3://x" "t" = some ("s3://x" ++ "/" ++ "t" ++ "/")
      ∧ tablePath ("s3://x" ++ "/") "t" = some ("s3://x" ++ "/" ++ "t" ++ "/") :=
  ⟨by decide, tablePath_single_slash.2.1 "s3://x" "t" (by decide) (by decide),
    tablePath_single_slash.2.2.1 "s3://x" "t"⟩

/-- Claim C6: table name normalization is the pure character map sending
spaces and hyphens to underscores and keeping every other character, hence
idempotent, and it sends both sleep periods and sleep-periods to
sleep_periods. -/
theorem normalizeTable_idempotent :
    (∀ s : String, normalizeTable s = String.mk (s.data.map normChar))
    ∧ (∀ s : String, normalizeTable (normalizeTable s) = normalizeTable s)
    ∧ normalizeTable "sleep periods" = "sleep_periods"
    ∧ normalizeTable "sleep-periods" = "sleep_periods" := by
  have hmain : ∀ s : String, normalizeTable s = String.mk (s.data.map normChar) := by
    intro s
    show String.mk ((s.data.map (fun c => if c == ' ' then '_' else c)).map
      (fun c => if c == '-' then '_' else c)) = String.mk (s.data.map normChar)
    rw [List.map_map]
    congr 1
    have hfun : ((fun c => if c == '-' then '_' else c)
        ∘ (fun c => if c == ' ' then '_' else c)) = normChar := by
      funext c
      simp only [Function.comp, normChar]
      by_cases h1 : c = ' '
      · subst h1; decide
      · by_cases h2 : c = '-'
        · subst h2; decide
        · simp [h1, h2]
    rw [hfun]
  have hgg : normChar ∘ normChar = normChar := by
    funext c
    simp only [Function.comp, normChar]
    by_cases h1 : c = ' '
    · subst h1; decide
    · by_cases h2 : c = '-'
      · subst h2; decide
      · simp [h1, h2]
  refine ⟨hmain, ?_, by decide, by decide⟩
  intro s
  rw [hmain (normalizeTable s), hmain s]
  show String.mk ((s.data.map normChar).map normChar) = String.mk (s.data.map normChar)
  rw [List.map_map, hgg]

/-- Claim C7: every exception of the sink call is caught at the boundary
and logged with the table name, the boundary always returns normally, which
files are processed does not depend on sink outcomes, and every recorded
per file outcome is the normal one. -/
theorem sink_exception_isolated :
    (∀ (e t : String), ingestSinkBoundary (Except.error e) t
        = (["Error : Could not create table " ++ t ++ " on AWS."], Except.ok ()))
    ∧ (∀ (r : Except String Unit) (t : String),
        (ingestSinkBoundary r t).2 = Except.ok ())
    ∧ (∀ (sink1 sink2 : String → String → Except String Unit) (cfg : Config)
        (files : List String),
        (participantRun sink1 cfg files).map Prod.fst
          = (participantRun sink2 cfg files).map Prod.fst)
    ∧ (∀ (sink : String → String → Except String Unit) (cfg : Config)
        (files : List String) (f : String) (p : Except String Unit),
        (f, p) ∈ participantRun sink cfg files → p = Except.ok ()) := by
  have hok : ∀ (r : Except String Unit) (t : String),
      (ingestSinkBoundary r t).2 = Except.ok () := by
    intro r t
    cases r <;> rfl
  refine ⟨fun e t => rfl, hok, ?_, ?_⟩
  · intro sink1 sink2 cfg files
    rw [participantRun, participantRun, List.map_flatMap, List.map_flatMap]
    congr 1
    funext f
    rcases hcf : classifyFile f with _ | pr
    · simp [hcf]
    · by_cases hwl : normalizeTable pr.2 ∈ cfg.whitelist_tables <;>
        simp [hcf, hwl]
  · intro sink cfg files f p hmem
    obtain ⟨g, _, hin⟩ := List.mem_flatMap.mp hmem
    rcases hcf : classifyFile g with _ | pr
    · simp [hcf] at hin
    · by_cases hwl : normalizeTable pr.2 ∈ cfg.whitelist_tables
      · simp [hcf, hwl] at hin
        rw [hin.2]
        exact hok _ _
      · simp [hcf, hwl] at hin

/-- Witness for claim C7 at a concrete failing sink and file list. -/
theorem sink_exception_isolated_witness :
    ("a_b_1_sleep.csv", Except.ok ())
        ∈ participantRun (fun _ _ => Except.error "boom") cfg0 ["a_b_1_sleep.csv"]
      ∧ (Except.ok () : Except String Unit) = Except.ok () := by
  have hmem : ("a_b_1_sleep.csv", (Except.ok () : Except String Unit))
      ∈ participantRun (fun _ _ => Except.error "boom") cfg0 ["a_b_1_sleep.csv"] := by
    rw [show participantRun (fun _ _ => Except.error "boom") cfg0 ["a_b_1_sleep.csv"]
        = [("a_b_1_sleep.csv", Except.ok ())] from rfl]
    exact List.mem_singleton.mpr rfl
  exact ⟨hmem,
    sink_exception_isolated.2.2.2 (fun _ _ => Except.error "boom") cfg0
      ["a_b_1_sleep.csv"] "a_b_1_sleep.csv" (Except.ok ()) hmem⟩

/-- Claim C8 (amended): a missing required AWS key makes startup fail with
the malformed section error before the walk begins: the run trace holds
only the two local configuration file reads and no directory listing, CSV
read or sink call. -/
theorem loadConfig_missing_key_aborts :
    ∀ (wl : List String) (aws : List (String × String)) (fs : FSModel),
      hasRequiredKeys aws = false →
      mainRun wl aws fs
        = ([IOEvent.readWhitelist, IOEvent.readConfigCfg],
           Except.error "Malformed config file section - aws") := by
  intro wl aws fs h
  rw [mainRun, loadConfig, h]
  rfl

/-- Claim C8, counterexample to the claim as stated: with a configuration
missing aws_database the process does abort before ingestion, but it has
already performed input output, namely the whitelist and configuration file
reads, so it does not abort before performing any input output. -/
theorem loadConfig_io_before_abort :
    mainRun ["sleep"] [("aws_s3_data", "s3://bucket/data")] fs0
        = ([IOEvent.readWhitelist, IOEvent.readConfigCfg],
           Except.error "Malformed config file section - aws")
      ∧ ([IOEvent.readWhitelist, IOEvent.readConfigCfg] : List IOEvent) ≠ [] := by
  constructor
  · rfl
  · decide

/-- Witness for the amended claim C8 at a concrete configuration missing
the database key. -/
theorem loadConfig_missing_key_aborts_witness :
    hasRequiredKeys [("aws_s3_data", "s3://bucket/data")] = false
      ∧ mainRun ["sleep"] [("aws_s3_data", "s3://bucket/data")] fs0
        = ([IOEvent.readWhitelist, IOEvent.readConfigCfg],
           Except.error "Malformed config file section - aws") :=
  ⟨by decide,
    loadConfig_missing_key_aborts ["sleep"] [("aws_s3_data", "s3://bucket/data")] fs0
      (by decide)⟩

/-- Claim C9: sampling reads exactly position zero of the column and
returns the explicit None result on an empty column; being a total
function of the embedding it never raises. -/
theorem sampleEntry_position_zero :
    (∀ (column : List PyVal) (x : PyVal) (rest : List PyVal),
        column = x :: rest → sampleEntry column = x)
    ∧ sampleEntry [] = PyVal.pyNone :=
  ⟨fun _ _ _ h => by rw [h]; rfl, rfl⟩

/-- Witness for claim C9 at a concrete column. -/
theorem sampleEntry_position_zero_witness :
    sampleEntry [PyVal.str "2024-01-15", PyVal.str "banana"] = PyVal.str "2024-01-15" :=
  sampleEntry_position_zero.1 _ (PyVal.str "2024-01-15") [PyVal.str "banana"] rfl

/-- Claim C10: a string example that fails the date pattern makes
smartTyper with convert fall through and return None, so for a dispatched
table whose sampled target value is a non date string the whole batch
handed to the sink is None rather than the frame. -/
theorem smartTyper_nonmatch_replaces_batch :
    (∀ (toDT : List PyVal → Option (List PyVal)) (s : String) (df : DataFrame)
        (col : String), dateFormatMatch s.data = false →
        smartTyper toDT (PyVal.str s) df col true = some PyObj.pyNone)
    ∧ (∀ (toDT : List PyVal → Option (List PyVal)) (data : DataFrame)
        (pid s3path path : String) (tablename : String) (cv : List PyVal) (s : String),
        (tablename = "activity" ∨ tablename = "sleep") →
        tablePath s3path tablename = some path →
        (data.setCol "pid" (List.replicate data.nrows (PyVal.str pid))).getCol?
            "summary_date" = some cv →
        sampleEntry cv = PyVal.str s →
        dateFormatMatch s.data = false →
        ingestDataPayload toDT data pid tablename s3path true
          = some (PyObj.pyNone, path))
    ∧ (∀ (toDT : List PyVal → Option (List PyVal)) (data : DataFrame)
        (pid s3path path : String) (cv : List PyVal) (s : String),
        tablePath s3path "sleep_periods" = some path →
        (data.setCol "pid" (List.replicate data.nrows (PyVal.str pid))).getCol?
            "day" = some cv →
        sampleEntry cv = PyVal.str s →
        dateFormatMatch s.data = false →
        ingestDataPayload toDT data pid "sleep_periods" s3path true
          = some (PyObj.pyNone, path)) := by
  have hfall : ∀ (toDT : List PyVal → Option (List PyVal)) (s : String) (df : DataFrame)
      (col : String), dateFormatMatch s.data = false →
      smartTyper toDT (PyVal.str s) df col true = some PyObj.pyNone := by
    intro toDT s df col h
    rw [smartTyper]
    simp [h]
  refine ⟨hfall, ?_, ?_⟩
  · intro toDT data pid s3path path tablename cv s htab hpath hcol hsample hdate
    have hcond : (decide (tablename = "activity") || decide (tablename = "sleep")) = true := by
      rcases htab with h | h <;> simp [h]
    rw [ingestDataPayload, hpath]
    simp only [if_pos rfl, hcond, if_true, hcol, hsample,
      hfall toDT s (data.setCol "pid" (List.replicate data.nrows (PyVal.str pid)))
        "summary_date" hdate]
    rfl
  · intro toDT data pid s3path path cv s hpath hcol hsample hdate
    have hc1 : (decide (("sleep_periods" : String) = "activity")
        || decide (("sleep_periods" : String) = "sleep")) = false := by decide
    have hc2 : decide (("sleep_periods" : String) = "sleep_periods") = true := by decide
    rw [ingestDataPayload, hpath]
    simp only [if_pos rfl, hc1, Bool.false_eq_true, if_false, hc2, if_true, hcol, hsample,
      hfall toDT s (data.setCol "pid" (List.replicate data.nrows (PyVal.str pid)))
        "day" hdate]
    rfl

/-- Witness for claim C10 at a concrete activity frame whose sampled
summary date is the non date string hello. -/
theorem smartTyper_nonmatch_replaces_batch_witness :
    ingestDataPayload toDTfail (DataFrame.mk [("summary_date", [PyVal.str "hello"])])
        "007" "activity" "s3://b" true = some (PyObj.pyNone, "s3://b/activity/") :=
  smartTyper_nonmatch_replaces_batch.2.1 toDTfail
    (DataFrame.mk [("summary_date", [PyVal.str "hello"])]) "007" "s3://b"
    "s3://b/activity/" "activity" [PyVal.str "hello"] "hello"
    (Or.inl rfl) (by decide) (by decide) rfl (by decide)

/-- Claim C1, evaluation at the failing input: the sampled summary date
looks like a date, the bulk parse raises ValueError, smartTyper logs and
returns the no conversion result None, and ingestData then hands None to
the sink in place of the original batch, contradicting the stated failure
semantics that the original unconverted frame is submitted. -/
theorem smartTyper_valueError_payload_is_none :
    smartTyper toDTfail (PyVal.str "2024-01-15")
        (dfC1.setCol "pid" (List.replicate dfC1.nrows (PyVal.str "007")))
        "summary_date" true = some PyObj.pyNone
    ∧ ingestDataPayload toDTfail dfC1 "007" "activity" "s3://bucket/data" true
        = some (PyObj.pyNone, "s3://bucket/data/activity/")
    ∧ (∀ d : DataFrame, PyObj.pyNone ≠ PyObj.df d) := by
  refine ⟨by decide, by decide, ?_⟩
  intro d h
  exact PyObj.noConfusion h

end OuraIngest
